import Mathlib

/-!
Verification of the BP-SDKs Rust core (bundle-protocol SDK) against its
natural-language specification.  The Rust sources under `src/rust/src/` are
shallowly embedded below: byte buffers become `List Nat`, Rust `String`s
become Lean `String`s (with character-level helpers mirroring the `str`
methods used), `HashMap`s become association lists, fallible functions
return `Except BpError`, and the external `ring` cryptography crate (not
part of this repository) is modelled abstractly from the spec.
-/

namespace BpSdk

/-- Embedding of `BpError` from `src/rust/src/error.rs`. -/
inductive BpError where
  | InvalidArgs
  | NotInitialized
  | Memory
  | Timeout
  | NotFound
  | Duplicate
  | Protocol (msg : String)
  | Routing (msg : String)
  | Storage (msg : String)
  | Security (msg : String)
  | Ion (code : Int)
  | Ffi (msg : String)
deriving DecidableEq, Repr

/-- Embedding of `BpResult<T>` from `src/rust/src/error.rs`. -/
abbrev BpResult (α : Type) := Except BpError α

/-- Mirrors Rust `str::starts_with` on the character sequence. -/
def strStartsWith (s p : String) : Bool :=
  p.toList.isPrefixOf s.toList

/-- Mirrors Rust `str::contains(char)` on the character sequence. -/
def strContainsChar (s : String) (c : Char) : Bool :=
  s.toList.contains c

/-- Embedding of `Eid::new` from `src/rust/src/types.rs` (lines 66-74):
accepts exactly the strings that start with `"ipn:"` and contain a `'.'`;
everything else fails with `InvalidArgs`.  The `Eid` newtype is represented
by the validated string itself. -/
def typesEidNew (eid : String) : BpResult String :=
  if strStartsWith eid "ipn:" && strContainsChar eid '.' then
    Except.ok eid
  else
    Except.error BpError.InvalidArgs

/-- Embedding of `Eid::new` from `src/rust/src/protocol/mod.rs` (lines
92-102): like the `types.rs` version but additionally accepts any string
starting with `"dtn:"`. -/
def protocolEidNew (eid : String) : BpResult String :=
  if strStartsWith eid "ipn:" && strContainsChar eid '.' then
    Except.ok eid
  else if strStartsWith eid "dtn:" then
    Except.ok eid
  else
    Except.error BpError.InvalidArgs

/-- Splits a character list on a separator character (all separators
removed, empty segments kept), mirroring Rust `str::split`. -/
def splitOnChar (c : Char) : List Char → List (List Char)
  | [] => [[]]
  | x :: xs =>
    match splitOnChar c xs with
    | [] => [[x]]
    | y :: ys => if x = c then [] :: y :: ys else (x :: y) :: ys

/-- Modelled from the spec: the numeric `node.service` scheme, i.e. strings
of the exact shape `ipn:<node>.<service>` with nonempty decimal `<node>`
and `<service>` (spec §3 and §8: "valid EID strings of the numeric scheme
`ipn:<node>.<service>`").  Used only to state claim C2 against the code. -/
def matchesNumericScheme (s : String) : Bool :=
  strStartsWith s "ipn:" &&
    (match splitOnChar '.' (s.toList.drop 4) with
     | [n, m] => !n.isEmpty && !m.isEmpty && n.all Char.isDigit && m.all Char.isDigit
     | _ => false)

/-- Modelled from the spec: the free-text scheme, i.e. any string carrying
the `dtn:` scheme tag (spec §3: "a free-text scheme"). -/
def matchesFreeTextScheme (s : String) : Bool :=
  strStartsWith s "dtn:"

/-! ### Association-list embedding of `HashMap<String, V>`

The Rust code stores metadata, keys and registries in `HashMap`s.  They are
embedded as association lists; `insertKV` has the insert-or-replace
semantics of `HashMap::insert` and `removeKV` that of `HashMap::remove`. -/

/-- `HashMap::get` on an association list. -/
def lookupKV {κ α : Type} [DecidableEq κ] : List (κ × α) → κ → Option α
  | [], _ => none
  | (k, v) :: rest, key => if k = key then some v else lookupKV rest key

/-- `HashMap::contains_key` on an association list. -/
def containsKV {κ α : Type} [DecidableEq κ] (m : List (κ × α)) (key : κ) : Bool :=
  (lookupKV m key).isSome

/-- `HashMap::insert` on an association list: replaces the binding if the
key is present, otherwise appends it. -/
def insertKV {κ α : Type} [DecidableEq κ] : List (κ × α) → κ → α → List (κ × α)
  | [], key, v => [(key, v)]
  | (k, v') :: rest, key, v =>
    if k = key then (key, v) :: rest else (k, v') :: insertKV rest key v

/-- `HashMap::remove` on an association list. -/
def removeKV {κ α : Type} [DecidableEq κ] : List (κ × α) → κ → List (κ × α)
  | [], _ => []
  | (k, v) :: rest, key => if k = key then rest else (k, v) :: removeKV rest key

/-- `HashSet::insert` on a duplicate-free list. -/
def setInsert {α : Type} [DecidableEq α] (s : List α) (x : α) : List α :=
  if x ∈ s then s else x :: s

/-! ### Bundle data model (`src/rust/src/types.rs`) -/

/-- Embedding of `Priority` from `src/rust/src/types.rs`. -/
inductive Priority where
  | Bulk
  | Standard
  | Expedited
deriving DecidableEq, Repr

/-- Embedding of `Custody` from `src/rust/src/types.rs`. -/
inductive Custody where
  | NoCustody
  | Optional
  | Required
deriving DecidableEq, Repr

/-- Embedding of `BpTimestamp` from `src/rust/src/types.rs`. -/
structure BpTimestamp where
  msec : Nat
  count : Nat
deriving DecidableEq, Repr

/-- Embedding of `Bundle` from `src/rust/src/types.rs`: EIDs are their
validated strings, the UUID is a `Nat`, the payload is its byte sequence,
`ttl` is held in milliseconds, and the metadata `HashMap` is an
association list. -/
structure Bundle where
  id : Nat
  sourceEid : String
  destEid : String
  reportToEid : Option String
  creationTime : BpTimestamp
  ttlMs : Nat
  priority : Priority
  custody : Custody
  payload : List Nat
  metadata : List (String × String)
deriving DecidableEq, Repr

/-! ### Security engine (`src/rust/src/bpsec.rs`) -/

/-- Embedding of `SecurityOperation` from `src/rust/src/bpsec.rs`. -/
inductive SecurityOperation where
  | Encrypt
  | Decrypt
  | Sign
  | Verify
deriving DecidableEq, Repr

/-- Embedding of `SecurityPolicy` from `src/rust/src/bpsec.rs`. -/
structure SecurityPolicy where
  name : String
  operation : SecurityOperation
  algorithm : String
  keyId : String
  targetEids : List String
  enabled : Bool
deriving DecidableEq, Repr

/-- Embedding of `SecurityPolicy::applies_to` (`src/rust/src/bpsec.rs`
lines 80-83). -/
def SecurityPolicy.applies_to (p : SecurityPolicy) (eid : String) : Bool :=
  p.enabled && (p.targetEids.isEmpty || p.targetEids.contains eid)

/-- Modelled from the spec: the AES-256-GCM AEAD primitive supplied by the
external `ring` crate, which is not part of this repository.  `seal key
nonce plaintext` is `seal_in_place_append_tag`: it returns the ciphertext
with the 16-byte authentication tag appended.  `openBuf key nonce buffer`
is `open_in_place`: on success the buffer comes back with the plaintext in
its first `buffer.length - 16` positions (the code then truncates the last
16 bytes).  The two laws are the documented AEAD correctness contract:
sealing grows the buffer by exactly the tag length, and opening a sealed
buffer with the same key and nonce succeeds and recovers the plaintext. -/
structure Aead where
  sealOp : List Nat → List Nat → List Nat → List Nat
  openBuf : List Nat → List Nat → List Nat → Option (List Nat)
  seal_length : ∀ k n p, (sealOp k n p).length = p.length + 16
  open_seal : ∀ k n p, ∃ buf, openBuf k n (sealOp k n p) = some buf ∧
    buf.length = (sealOp k n p).length ∧ buf.take p.length = p

/-- A concrete `Aead` used to evaluate witnesses: sealing appends sixteen
zero tag bytes and opening returns the buffer unchanged. -/
def trivAead : Aead where
  sealOp := fun _ _ p => p ++ List.replicate 16 0
  openBuf := fun _ _ b => some b
  seal_length := by intro k n p; simp
  open_seal := by
    intro k n p
    refine ⟨p ++ List.replicate 16 0, rfl, rfl, ?_⟩
    simp

/-- Embedding of `BpsecManager::encrypt_data` (`src/rust/src/bpsec.rs`
lines 184-213).  The AEAD is the abstract `ring` primitive and the fresh
96-bit nonce drawn from the system RNG is passed as the `nonce` argument;
the function prepends the nonce bytes to the sealed payload. -/
def encrypt_data (A : Aead) (nonce : List Nat) (data key : List Nat)
    (algorithm : String) : BpResult (List Nat) :=
  if algorithm = "AES-256-GCM" then
    if key.length ≠ 32 then
      Except.error (BpError.Security "Invalid key length for AES-256")
    else
      Except.ok (nonce ++ A.sealOp key nonce data)
  else
    Except.error (BpError.Protocol ("Unsupported encryption algorithm: " ++ algorithm))

/-- Embedding of `BpsecManager::decrypt_data` (`src/rust/src/bpsec.rs`
lines 287-312): splits off the 12-byte nonce, opens the remainder with the
abstract AEAD (`UnboundKey::new` rejects keys that are not 32 bytes), and
truncates the 16-byte tag from the opened buffer. -/
def decrypt_data (A : Aead) (data key : List Nat)
    (algorithm : String) : BpResult (List Nat) :=
  if algorithm = "AES-256-GCM" then
    if data.length < 12 then
      Except.error (BpError.Security "Invalid encrypted data length")
    else if key.length ≠ 32 then
      Except.error (BpError.Security "Invalid key")
    else
      match A.openBuf key (data.take 12) (data.drop 12) with
      | none => Except.error (BpError.Security "Decryption failed")
      | some buf => Except.ok (buf.take (buf.length - 16))
  else
    Except.error (BpError.Protocol ("Unsupported decryption algorithm: " ++ algorithm))

/-- Embedding of `BpsecManager::sign_data` (`src/rust/src/bpsec.rs` lines
215-224); the HMAC-SHA256 primitive of the external `ring` crate is the
abstract function argument `hmac` (key first, then data). -/
def sign_data (hmac : List Nat → List Nat → List Nat) (data key : List Nat)
    (algorithm : String) : BpResult (List Nat) :=
  if algorithm = "HMAC-SHA256" then
    Except.ok (hmac key data)
  else
    Except.error (BpError.Protocol ("Unsupported signature algorithm: " ++ algorithm))

/-! ### Bundle-level security operations (`src/rust/src/bpsec.rs`) -/

/-- Embedding of `BpsecManager::encrypt_bundle` (`src/rust/src/bpsec.rs`
lines 166-173). -/
def encrypt_bundle (A : Aead) (nonce : List Nat) (b : Bundle) (key : List Nat)
    (algorithm : String) : BpResult Bundle :=
  match encrypt_data A nonce b.payload key algorithm with
  | Except.error e => Except.error e
  | Except.ok encryptedPayload =>
    Except.ok { b with
      payload := encryptedPayload,
      metadata := insertKV (insertKV b.metadata "security_applied" "encryption")
        "encryption_algorithm" algorithm }

/-- Hexadecimal digit for a value below 16, mirroring the `hex` crate's
lowercase alphabet. -/
def hexDigit (n : Nat) : Char :=
  if n < 10 then Char.ofNat (48 + n) else Char.ofNat (87 + n)

/-- Embedding of `hex::encode` (external `hex` crate): two lowercase hex
characters per byte. -/
def hexEncode (bytes : List Nat) : String :=
  String.mk (bytes.foldr (fun b acc => hexDigit (b / 16 % 16) :: hexDigit (b % 16) :: acc) [])

/-- Embedding of `BpsecManager::sign_bundle` (`src/rust/src/bpsec.rs`
lines 175-182). -/
def sign_bundle (hmac : List Nat → List Nat → List Nat) (b : Bundle)
    (key : List Nat) (algorithm : String) : BpResult Bundle :=
  match sign_data hmac b.payload key algorithm with
  | Except.error e => Except.error e
  | Except.ok signature =>
    Except.ok { b with
      metadata := insertKV (insertKV (insertKV b.metadata
        "security_applied" "signature")
        "signature_algorithm" algorithm)
        "signature" (hexEncode signature) }

/-- Embedding of `BpsecManager::apply_policy` (`src/rust/src/bpsec.rs`
lines 155-164): looks the policy's key up in the keyring and dispatches on
the policy operation. -/
def apply_policy (A : Aead) (hmac : List Nat → List Nat → List Nat)
    (nonce : List Nat) (keys : List (String × List Nat)) (b : Bundle)
    (p : SecurityPolicy) : BpResult Bundle :=
  match lookupKV keys p.keyId with
  | none => Except.error BpError.NotFound
  | some key =>
    match p.operation with
    | SecurityOperation.Encrypt => encrypt_bundle A nonce b key p.algorithm
    | SecurityOperation.Sign => sign_bundle hmac b key p.algorithm
    | _ => Except.error (BpError.Protocol "Unsupported operation")

/-- The fold of `apply_policy` over the applicable policies inside
`BpsecManager::apply_security`; `i` indexes the nonce stream so that each
encryption call draws a fresh nonce from the RNG model `nonces`. -/
def applyPoliciesLoop (A : Aead) (hmac : List Nat → List Nat → List Nat)
    (nonces : Nat → List Nat) (keys : List (String × List Nat)) :
    Nat → List SecurityPolicy → Bundle → BpResult Bundle
  | _, [], b => Except.ok b
  | i, p :: ps, b =>
    match apply_policy A hmac (nonces i) keys b p with
    | Except.error e => Except.error e
    | Except.ok b2 => applyPoliciesLoop A hmac nonces keys (i + 1) ps b2

/-- Embedding of `BpsecManager::apply_security` (`src/rust/src/bpsec.rs`
lines 136-153): filters the stored policies by `applies_to` on the
bundle's destination EID, returns the bundle unchanged when none matches,
and otherwise applies every matching policy in sequence.  The policy store
is the list of stored policies in iteration order. -/
def apply_security (A : Aead) (hmac : List Nat → List Nat → List Nat)
    (nonces : Nat → List Nat) (policies : List SecurityPolicy)
    (keys : List (String × List Nat)) (b : Bundle) : BpResult Bundle :=
  let applicable := policies.filter (fun p => p.applies_to b.destEid)
  if applicable.isEmpty then
    Except.ok b
  else
    applyPoliciesLoop A hmac nonces keys 0 applicable b

/-- The recorded algorithm recovered in `BpsecManager::decrypt_bundle`:
the `"encryption_algorithm"` metadata entry, defaulting to
`"AES-256-GCM"`. -/
def recordedAlgorithm (b : Bundle) : String :=
  (lookupKV b.metadata "encryption_algorithm").getD "AES-256-GCM"

/-- The key-trial loop of `BpsecManager::decrypt_bundle`: tries
`decrypt_data` with each stored key in turn; the first success yields the
decrypted bundle with both security markers removed, and exhaustion yields
the `Security` failure. -/
def decryptLoop (A : Aead) (b : Bundle) (algorithm : String) :
    List (List Nat) → BpResult Bundle
  | [] => Except.error (BpError.Security "Failed to decrypt bundle")
  | key :: rest =>
    match decrypt_data A b.payload key algorithm with
    | Except.ok decryptedPayload =>
      Except.ok { b with
        payload := decryptedPayload,
        metadata := removeKV (removeKV b.metadata "security_applied")
          "encryption_algorithm" }
    | Except.error _ => decryptLoop A b algorithm rest

/-- Embedding of `BpsecManager::decrypt_bundle` (`src/rust/src/bpsec.rs`
lines 259-285): bundles without the `"security_applied"` marker, or whose
marker is not `"encryption"`, are returned unchanged; otherwise every
stored key is tried against the recorded algorithm.  `keys` is the keyring
in iteration order. -/
def decrypt_bundle (A : Aead) (keys : List (String × List Nat))
    (b : Bundle) : BpResult Bundle :=
  match lookupKV b.metadata "security_applied" with
  | none => Except.ok b
  | some securityType =>
    if securityType ≠ "encryption" then
      Except.ok b
    else
      decryptLoop A b (recordedAlgorithm b) (keys.map Prod.snd)


/-! ### Stream transport framing (`src/rust/src/transport/mod.rs`) -/

/-- Embedding of `u32::from_be_bytes` on a list of byte values. -/
def u32FromBeBytes (bytes : List Nat) : Nat :=
  bytes.foldl (fun acc b => acc * 256 + b) 0

/-- Embedding of the framing part of `TcpCla::receive`
(`src/rust/src/transport/mod.rs` lines 143-165), with the accepted
connection's incoming byte stream as `input`.  The order of operations
mirrors the code: the 4-byte big-endian length prefix is read first, a
declared length above the 10,000,000-byte ceiling is rejected with the
`Protocol` error *before* the `vec![0u8; len]` receive buffer is
allocated, and only then are `len` body bytes read.  The trailing JSON
deserialization (`deserialize_bundle`) is beyond the framing and is not
modelled; the raw frame body is returned. -/
def tcpReceiveFrame (input : List Nat) : BpResult (List Nat) :=
  if input.length < 4 then
    Except.error (BpError.Protocol "Failed to read bundle length")
  else
    let len := u32FromBeBytes (input.take 4)
    if len > 10000000 then
      Except.error (BpError.Protocol "Bundle too large")
    else if (input.drop 4).length < len then
      Except.error (BpError.Protocol "Failed to read bundle data")
    else
      Except.ok ((input.drop 4).take len)

/-! ### Routing engines (`src/rust/src/routing.rs`) -/

/-- Embedding of `RoutingContext` from `src/rust/src/routing.rs` (lines
19-38).  The `bundle_id` lives as the key of the history map, and the
wall-clock `last_updated` field and the unused `metadata` map are not
modelled (no claim reads them). -/
structure RoutingContext where
  encounters : List String
  copiesLeft : Nat
deriving DecidableEq, Repr

/-- `RoutingContext::new`: empty encounter set, one copy. -/
def RoutingContext.new : RoutingContext :=
  { encounters := [], copiesLeft := 1 }

/-- A routing history: the `routing_history` map keyed by bundle UUID. -/
abbrev RoutingHistory := List (Nat × RoutingContext)

/-- The encounter set recorded for a bundle, empty when the bundle has no
context yet. -/
def encountersOf (hist : RoutingHistory) (bundleId : Nat) : List String :=
  match lookupKV hist bundleId with
  | some context => context.encounters
  | none => []

/-- Embedding of `EpidemicRouting::should_replicate`
(`src/rust/src/routing.rs` lines 55-62). -/
def EpidemicRouting.should_replicate (hist : RoutingHistory) (bundleId : Nat)
    (neighborEid : String) : Bool :=
  match lookupKV hist bundleId with
  | some context => !context.encounters.contains neighborEid
  | none => true

/-- Embedding of `EpidemicRouting::update_encounter`
(`src/rust/src/routing.rs` lines 64-69). -/
def EpidemicRouting.update_encounter (hist : RoutingHistory) (bundleId : Nat)
    (neighborEid : String) : RoutingHistory :=
  let context := (lookupKV hist bundleId).getD RoutingContext.new
  insertKV hist bundleId
    { context with encounters := setInsert context.encounters neighborEid }

/-- Embedding of `EpidemicRouting::should_forward`
(`src/rust/src/routing.rs` lines 106-117), as a transition on the routing
history: contacts whose neighbor is the bundle's destination are always
accepted without touching the history; otherwise the decision is
`should_replicate` and a positive decision records the encounter. -/
def EpidemicRouting.should_forward (hist : RoutingHistory) (bundleId : Nat)
    (destEid neighborEid : String) : Bool × RoutingHistory :=
  if destEid = neighborEid then
    (true, hist)
  else if EpidemicRouting.should_replicate hist bundleId neighborEid then
    (true, EpidemicRouting.update_encounter hist bundleId neighborEid)
  else
    (false, hist)

/-- Runs a sequence of `EpidemicRouting::should_forward` calls, each given
as `(bundleId, destEid, neighborEid)`, returning the final history. -/
def epidemicRun : List (Nat × String × String) → RoutingHistory → RoutingHistory
  | [], hist => hist
  | (bundleId, destEid, neighborEid) :: calls, hist =>
    epidemicRun calls (EpidemicRouting.should_forward hist bundleId destEid neighborEid).2

/-- Embedding of `SprayAndWaitRouting::initialize_context`
(`src/rust/src/routing.rs` lines 143-147): a fresh context whose
`copies_left` is the engine's `initial_copies` budget. -/
def SprayAndWaitRouting.initialize_context (initialCopies : Nat) : RoutingContext :=
  { encounters := [], copiesLeft := initialCopies }

/-- Embedding of `SprayAndWaitRouting::should_spray`
(`src/rust/src/routing.rs` lines 149-166), as a transition on the routing
history.  The `entry(..).or_insert_with(..)` call materialises the context
in the map on every call, so every branch re-inserts the (possibly
updated) context. -/
def SprayAndWaitRouting.should_spray (initialCopies : Nat)
    (hist : RoutingHistory) (bundleId : Nat)
    (destEid neighborEid : String) : Bool × RoutingHistory :=
  let context := (lookupKV hist bundleId).getD
    (SprayAndWaitRouting.initialize_context initialCopies)
  if destEid = neighborEid then
    (true, insertKV hist bundleId context)
  else if context.copiesLeft > 1 && !context.encounters.contains neighborEid then
    (true, insertKV hist bundleId
      { encounters := setInsert context.encounters neighborEid,
        copiesLeft := context.copiesLeft - 1 })
  else
    (false, insertKV hist bundleId context)

/-- Runs a sequence of `should_spray` calls for one bundle against a fixed
destination, returning the per-call `(neighbor, decision)` trace and the
final history. -/
def sprayRun (initialCopies : Nat) (bundleId : Nat) (destEid : String) :
    List String → RoutingHistory → List (String × Bool) × RoutingHistory
  | [], hist => ([], hist)
  | neighborEid :: ns, hist =>
    let step := SprayAndWaitRouting.should_spray initialCopies hist bundleId destEid neighborEid
    let rest := sprayRun initialCopies bundleId destEid ns step.2
    ((neighborEid, step.1) :: rest.1, rest.2)

/-- The non-destination neighbors answered `true` in a `sprayRun` trace. -/
def sprayedNeighbors (trace : List (String × Bool)) (destEid : String) : List String :=
  (trace.filter (fun p => p.2 && !(p.1 == destEid))).map Prod.fst

/-! ### Probabilistic (Prophet) routing (`src/rust/src/routing.rs`) -/

/-- Bit length of a natural number, by fuel-bounded binary recursion; the
fuel 128 covers every value below `2 ^ 128`, which includes every
significand product arising here (at most 106 bits). -/
def bitLenAux : Nat → Nat → Nat
  | 0, _ => 0
  | fuel + 1, n => if n = 0 then 0 else bitLenAux fuel (n / 2) + 1

/-- Bit length of a natural number below `2 ^ 128`. -/
def bitLen (n : Nat) : Nat := bitLenAux 128 n

/-- An IEEE-754 binary64 (`f64`) datum of the normal range, represented
exactly as a dyadic pair `(significand, exponent)` of value
`significand * 2 ^ exponent`. -/
abbrev Fp := ℤ × ℤ

/-- The exact rational value of a binary64 datum. -/
def Fp.toRat (p : Fp) : ℚ := (p.1 : ℚ) * 2 ^ p.2

/-- The significand of `s` shifted right by `k` bits and rounded to
nearest, ties to even — the rounding step IEEE 754 prescribes, and Rust
guarantees, for every `f64` arithmetic operation. -/
def roundSig (s : ℤ) (k : ℕ) : ℤ :=
  if 2 ^ (k - 1) < s % 2 ^ k then s / 2 ^ k + 1
  else if s % 2 ^ k < 2 ^ (k - 1) then s / 2 ^ k
  else if (s / 2 ^ k) % 2 = 0 then s / 2 ^ k else s / 2 ^ k + 1

/-- Rounds the exact dyadic `s * 2 ^ e` (`s ≥ 0`) to a 53-bit significand,
nearest, ties to even, carrying into the exponent when the rounded
significand overflows to `2 ^ 53`.  Exponent overflow and subnormal
underflow cannot occur in the value range used here and are not
modelled.  This model was cross-validated against hardware IEEE-754
doubles on the probability trajectory and on random operands. -/
def roundNE (s e : ℤ) : Fp :=
  if s < 2 ^ 53 then (s, e)
  else
    if roundSig s (bitLen s.toNat - 53) = 2 ^ 53 then
      (2 ^ 52, e + (bitLen s.toNat - 53 : ℕ) + 1)
    else
      (roundSig s (bitLen s.toNat - 53), e + (bitLen s.toNat - 53 : ℕ))

/-- Correctly rounded `f64` addition: operands aligned to the smaller
exponent, exact sum, one rounding. -/
def fadd (a b : Fp) : Fp :=
  roundNE
    (a.1 * 2 ^ (a.2 - min a.2 b.2).toNat + b.1 * 2 ^ (b.2 - min a.2 b.2).toNat)
    (min a.2 b.2)

/-- Correctly rounded `f64` subtraction. -/
def fsub (a b : Fp) : Fp :=
  roundNE
    (a.1 * 2 ^ (a.2 - min a.2 b.2).toNat - b.1 * 2 ^ (b.2 - min a.2 b.2).toNat)
    (min a.2 b.2)

/-- Correctly rounded `f64` multiplication. -/
def fmul (a b : Fp) : Fp :=
  roundNE (a.1 * b.1) (a.2 + b.2)

/-- Embedding of one probability update of
`ProphetRouting::update_delivery_probability` (`src/rust/src/routing.rs`
lines 229-237) under the program's own `f64` arithmetic:
`current + (1.0 - current) * self.alpha` with `alpha = 0.75 = 3 * 2 ^ (-2)`
fixed by `ProphetRouting::new`, computed as the three correctly rounded
`f64` operations the expression performs. -/
def f64update (p : Fp) : Fp :=
  fadd p (fmul (fsub (1, 0) p) (3, -2))

/-- The delivery probability stored for a neighbor after `n` contact
updates, starting from the `unwrap_or(0.0)` default of
`update_delivery_probability`. -/
def probAfter : ℕ → Fp
  | 0 => (0, 0)
  | n + 1 => f64update (probAfter n)

/-- Executable strict value comparison of two binary64 data. -/
def fltB (a b : Fp) : Bool :=
  decide (a.1 * 2 ^ (a.2 - min a.2 b.2).toNat
    < b.1 * 2 ^ (b.2 - min a.2 b.2).toNat)

/-! ### Manager registries (`src/rust/src/bpsec.rs`, `src/rust/src/cla.rs`,
`src/rust/src/routing.rs`) -/

/-- Embedding of `BpsecManager::add_policy` (`src/rust/src/bpsec.rs` lines
100-107): fails with `Duplicate` when a policy of that name is stored. -/
def add_policy (policies : List (String × SecurityPolicy))
    (policy : SecurityPolicy) : BpResult (List (String × SecurityPolicy)) :=
  if containsKV policies policy.name then
    Except.error BpError.Duplicate
  else
    Except.ok (insertKV policies policy.name policy)

/-- Embedding of `BpsecManager::remove_policy` (`src/rust/src/bpsec.rs`
lines 109-112): fails with `NotFound` when absent. -/
def remove_policy (policies : List (String × SecurityPolicy))
    (name : String) : BpResult (List (String × SecurityPolicy)) :=
  if containsKV policies name then
    Except.ok (removeKV policies name)
  else
    Except.error BpError.NotFound

/-- Embedding of `ClaManager::register` (`src/rust/src/cla.rs` lines
58-68), keyed by the adapter's protocol name; the trait object is
represented by an opaque numeric identity. -/
def ClaManager.register (clas : List (String × Nat)) (protocol : String)
    (claId : Nat) : BpResult (List (String × Nat)) :=
  if containsKV clas protocol then
    Except.error BpError.Duplicate
  else
    Except.ok (insertKV clas protocol claId)

/-- Embedding of `ClaManager::unregister` (`src/rust/src/cla.rs` lines
71-74). -/
def ClaManager.unregister (clas : List (String × Nat))
    (protocol : String) : BpResult (List (String × Nat)) :=
  if containsKV clas protocol then
    Except.ok (removeKV clas protocol)
  else
    Except.error BpError.NotFound

/-- Embedding of the `RoutingManager` registry state
(`src/rust/src/routing.rs` lines 317-320): engines keyed by name (trait
objects as opaque numeric identities) plus the active-engine name. -/
structure RoutingManagerState where
  engines : List (String × Nat)
  activeEngine : Option String
deriving DecidableEq, Repr

/-- Embedding of `RoutingManager::register_engine`
(`src/rust/src/routing.rs` lines 336-344): inserts unconditionally (a
`HashMap::insert`, replacing any entry of the same name — there is no
duplicate check and no error return), then makes the engine active if no
engine was active yet. -/
def RoutingManager.register_engine (st : RoutingManagerState) (name : String)
    (engineId : Nat) : RoutingManagerState :=
  { engines := insertKV st.engines name engineId,
    activeEngine :=
      match st.activeEngine with
      | none => some name
      | some a => some a }

/-- Embedding of `RoutingManager::set_active_engine`
(`src/rust/src/routing.rs` lines 346-354): fails with `NotFound` for an
unregistered name. -/
def RoutingManager.set_active_engine (st : RoutingManagerState)
    (name : String) : BpResult RoutingManagerState :=
  if containsKV st.engines name then
    Except.ok { st with activeEngine := some name }
  else
    Except.error BpError.NotFound


/-! ### Sample values and proof-level definitions -/

/-- A sample bundle mirroring `create_test_bundle` in the bpsec tests;
destination and metadata vary per use. -/
def mkBundle (dest : String) (md : List (String × String)) : Bundle :=
  { id := 0, sourceEid := "ipn:1.1", destEid := dest, reportToEid := none,
    creationTime := { msec := 0, count := 0 }, ttlMs := 3600000,
    priority := Priority.Standard, custody := Custody.NoCustody,
    payload := [72, 105], metadata := md }

/-- The sample destination-scoped policy of the
`test_policy_application_conditions` test: enabled, scoped to `ipn:3.1`. -/
def selectivePolicy : SecurityPolicy :=
  { name := "selective-policy", operation := SecurityOperation.Sign,
    algorithm := "HMAC-SHA256", keyId := "default",
    targetEids := ["ipn:3.1"], enabled := true }

/-- Invariant of a spray-and-wait context for one bundle: the remaining
budget plus the distinct encountered neighbors always account for the
initial budget, and the last copy is never given away. -/
def sprayInv (initialCopies bundleId : Nat) (hist : RoutingHistory) : Prop :=
  ∀ ctx, lookupKV hist bundleId = some ctx →
    ctx.copiesLeft + ctx.encounters.length = initialCopies ∧
    ctx.encounters.Nodup ∧
    (0 < initialCopies → 0 < ctx.copiesLeft)

/-! ### Helper lemmas -/

lemma lookupKV_insert_self {κ α : Type} [DecidableEq κ] (m : List (κ × α)) (k : κ) (v : α) :
    lookupKV (insertKV m k v) k = some v := by
  induction m with
  | nil => simp [insertKV, lookupKV]
  | cons hd tl ih =>
    obtain ⟨k', v'⟩ := hd
    by_cases h : k' = k
    · simp [insertKV, lookupKV, h]
    · simp [insertKV, lookupKV, h, ih]

lemma lookupKV_insert_ne {κ α : Type} [DecidableEq κ] (m : List (κ × α)) (k k' : κ) (v : α)
    (h : k' ≠ k) : lookupKV (insertKV m k v) k' = lookupKV m k' := by
  induction m with
  | nil => simp [insertKV, lookupKV, h, Ne.symm h]
  | cons hd tl ih =>
    obtain ⟨k1, v1⟩ := hd
    by_cases h1 : k1 = k
    · subst h1
      simp [insertKV, lookupKV, h, Ne.symm h]
    · by_cases h2 : k1 = k'
      · subst h2
        simp [insertKV, lookupKV, h1]
      · simp [insertKV, lookupKV, h1, h2, ih]

lemma mem_setInsert_of_mem {α : Type} [DecidableEq α] {s : List α} {a x : α}
    (h : a ∈ s) : a ∈ setInsert s x := by
  unfold setInsert
  split_ifs <;> simp [h]

lemma mem_setInsert_self {α : Type} [DecidableEq α] (s : List α) (x : α) :
    x ∈ setInsert s x := by
  unfold setInsert
  split_ifs with h <;> simp [h]

lemma decryptLoop_all_fail (A : Aead) (b : Bundle) (alg : String)
    (ks : List (List Nat))
    (h : ∀ k ∈ ks, ∀ pl, decrypt_data A b.payload k alg ≠ Except.ok pl) :
    decryptLoop A b alg ks = Except.error (BpError.Security "Failed to decrypt bundle") := by
  induction ks with
  | nil => rfl
  | cons k rest ih =>
    rw [decryptLoop]
    cases hd : decrypt_data A b.payload k alg with
    | ok pl => exact absurd hd (h k (by simp) pl)
    | error e => exact ih (fun k' hk' => h k' (by simp [hk']))

lemma decryptLoop_first_success (A : Aead) (b : Bundle) (alg : String)
    (ks1 : List (List Nat)) (k : List Nat) (ks2 : List (List Nat)) (pl : List Nat)
    (hfail : ∀ k' ∈ ks1, ∀ q, decrypt_data A b.payload k' alg ≠ Except.ok q)
    (hk : decrypt_data A b.payload k alg = Except.ok pl) :
    decryptLoop A b alg (ks1 ++ k :: ks2)
      = Except.ok { b with
          payload := pl
          metadata :=
            removeKV (removeKV b.metadata "security_applied") "encryption_algorithm" } := by
  induction ks1 with
  | nil => rw [List.nil_append, decryptLoop, hk]
  | cons k0 rest ih =>
    rw [List.cons_append, decryptLoop]
    cases hd : decrypt_data A b.payload k0 alg with
    | ok q => exact absurd hd (hfail k0 (by simp) q)
    | error e => exact ih (fun k' hk' => hfail k' (by simp [hk']))



/-! ### Spray-and-wait step and run lemmas -/

lemma spray_step (N bId : Nat) (dest n : String) (hist : RoutingHistory)
    (hinv : sprayInv N bId hist) :
    sprayInv N bId (SprayAndWaitRouting.should_spray N hist bId dest n).2 ∧
    (∀ x, x ∈ encountersOf hist bId →
      x ∈ encountersOf (SprayAndWaitRouting.should_spray N hist bId dest n).2 bId) ∧
    ((SprayAndWaitRouting.should_spray N hist bId dest n).1 = true → n ≠ dest →
      n ∈ encountersOf (SprayAndWaitRouting.should_spray N hist bId dest n).2 bId) := by
  unfold SprayAndWaitRouting.should_spray
  cases hl : lookupKV hist bId with
  | none =>
    simp only [hl, Option.getD_none, SprayAndWaitRouting.initialize_context]
    by_cases hd : dest = n
    · rw [if_pos hd]
      dsimp only
      refine ⟨?_, ?_, ?_⟩
      · intro ctx hctx
        rw [lookupKV_insert_self] at hctx
        cases hctx
        simp
      · intro x hx
        simp [encountersOf, hl] at hx
      · intro _ hne
        exact absurd hd.symm hne
    · rw [if_neg hd]
      by_cases hg : (decide (1 < N) && !List.contains [] n) = true
      · rw [if_pos hg]
        dsimp only
        simp only [List.contains, decide_eq_true_eq, Bool.and_eq_true] at hg
        refine ⟨?_, ?_, ?_⟩
        · intro ctx hctx
          rw [lookupKV_insert_self] at hctx
          cases hctx
          refine ⟨?_, ?_, ?_⟩
          · simp [setInsert]
            omega
          · simp [setInsert]
          · intro _
            dsimp only
            omega
        · intro x hx
          simp [encountersOf, hl] at hx
        · intro _ _
          simp only [encountersOf, lookupKV_insert_self]
          exact mem_setInsert_self [] n
      · rw [if_neg hg]
        dsimp only
        refine ⟨?_, ?_, ?_⟩
        · intro ctx hctx
          rw [lookupKV_insert_self] at hctx
          cases hctx
          simp
        · intro x hx
          simp [encountersOf, hl] at hx
        · intro hfalse _
          simp at hfalse
  | some c =>
    obtain ⟨hsum, hnodup, hpos⟩ := hinv c hl
    simp only [hl, Option.getD_some]
    by_cases hd : dest = n
    · rw [if_pos hd]
      dsimp only
      refine ⟨?_, ?_, ?_⟩
      · intro ctx hctx
        rw [lookupKV_insert_self] at hctx
        cases hctx
        exact ⟨hsum, hnodup, hpos⟩
      · intro x hx
        simp only [encountersOf, hl] at hx
        simp only [encountersOf, lookupKV_insert_self]
        exact hx
      · intro _ hne
        exact absurd hd.symm hne
    · rw [if_neg hd]
      by_cases hg : (decide (1 < c.copiesLeft) && !c.encounters.contains n) = true
      · rw [if_pos hg]
        dsimp only
        simp only [Bool.and_eq_true, decide_eq_true_eq, Bool.not_eq_true'] at hg
        obtain ⟨hgt, hcont⟩ := hg
        have hnmem : n ∉ c.encounters := by simpa using hcont
        have hset : setInsert c.encounters n = n :: c.encounters := by
          simp [setInsert, hnmem]
        refine ⟨?_, ?_, ?_⟩
        · intro ctx hctx
          rw [lookupKV_insert_self] at hctx
          cases hctx
          refine ⟨?_, ?_, ?_⟩
          · simp only [hset, List.length_cons]
            omega
          · simp only [hset]
            exact List.Nodup.cons hnmem hnodup
          · intro _
            dsimp only
            omega
        · intro x hx
          simp only [encountersOf, hl] at hx
          simp only [encountersOf, lookupKV_insert_self, hset]
          exact List.mem_cons_of_mem n hx
        · intro _ _
          simp only [encountersOf, lookupKV_insert_self]
          exact mem_setInsert_self c.encounters n
      · rw [if_neg hg]
        dsimp only
        refine ⟨?_, ?_, ?_⟩
        · intro ctx hctx
          rw [lookupKV_insert_self] at hctx
          cases hctx
          exact ⟨hsum, hnodup, hpos⟩
        · intro x hx
          simp only [encountersOf, hl] at hx
          simp only [encountersOf, lookupKV_insert_self]
          exact hx
        · intro hfalse _
          simp at hfalse

lemma sprayRun_spec (N bId : Nat) (dest : String) (ns : List String) :
    ∀ hist, sprayInv N bId hist →
      sprayInv N bId (sprayRun N bId dest ns hist).2 ∧
      ∀ x, (x ∈ sprayedNeighbors (sprayRun N bId dest ns hist).1 dest ∨
            x ∈ encountersOf hist bId) →
        x ∈ encountersOf (sprayRun N bId dest ns hist).2 bId := by
  induction ns with
  | nil =>
    intro hist hinv
    refine ⟨hinv, ?_⟩
    intro x hx
    rcases hx with h | h
    · simp [sprayRun, sprayedNeighbors] at h
    · simpa [sprayRun] using h
  | cons n ns ih =>
    intro hist hinv
    obtain ⟨hinv1, hmono, hrec⟩ := spray_step N bId dest n hist hinv
    obtain ⟨hinvf, hmemf⟩ :=
      ih (SprayAndWaitRouting.should_spray N hist bId dest n).2 hinv1
    rw [sprayRun]
    dsimp only
    refine ⟨hinvf, ?_⟩
    intro x hx
    rcases hx with h | h
    · rw [sprayedNeighbors, List.filter_cons] at h
      by_cases hc : ((SprayAndWaitRouting.should_spray N hist bId dest n).1
          && !(n == dest)) = true
      · rw [if_pos hc] at h
        simp only [Bool.and_eq_true, beq_iff_eq, Bool.not_eq_true',
          beq_eq_false_iff_ne] at hc
        obtain ⟨htrue, hne⟩ := hc
        rcases List.mem_map.mp h with ⟨p, hp, hpx⟩
        rcases List.mem_cons.mp hp with hp1 | hp2
        · subst hp1
          subst hpx
          exact hmemf n (Or.inr (hrec htrue hne))
        · exact hmemf x (Or.inl (List.mem_map.mpr ⟨p, hp2, hpx⟩))
      · rw [if_neg hc] at h
        exact hmemf x (Or.inl h)
    · exact hmemf x (Or.inr (hmono x h))

/-- C4: For the bounded-replication (spray-and-wait) engine constructed
with budget `N`, over any sequence of `should_forward` calls for one
bundle, the number of distinct non-destination neighbors answered `true`
is at most `N - 1`; once the bundle's remaining-copies counter reaches 1,
`should_forward` answers `false` for every neighbor other than the
bundle's destination, while delivery to the destination itself is always
permitted. -/
theorem spray_and_wait_budget (N bId : Nat) (destEid : String)
    (neighbors : List String) :
    (sprayedNeighbors (sprayRun N bId destEid neighbors []).1 destEid).toFinset.card
        ≤ N - 1 ∧
    (∀ hist ctx n, lookupKV hist bId = some ctx → ctx.copiesLeft = 1 →
      n ≠ destEid →
      (SprayAndWaitRouting.should_spray N hist bId destEid n).1 = false) ∧
    (∀ hist, (SprayAndWaitRouting.should_spray N hist bId destEid destEid).1 = true) := by
  refine ⟨?_, ?_, ?_⟩
  · have h0 : sprayInv N bId [] := by
      intro ctx h
      simp [lookupKV] at h
    obtain ⟨hinvf, hmem⟩ := sprayRun_spec N bId destEid neighbors [] h0
    have hsubF : (sprayedNeighbors (sprayRun N bId destEid neighbors []).1 destEid).toFinset
        ⊆ (encountersOf (sprayRun N bId destEid neighbors []).2 bId).toFinset := by
      intro x hx
      rw [List.mem_toFinset] at hx ⊢
      exact hmem x (Or.inl hx)
    have hcard1 := Finset.card_le_card hsubF
    cases hlf : lookupKV (sprayRun N bId destEid neighbors []).2 bId with
    | none =>
      have : encountersOf (sprayRun N bId destEid neighbors []).2 bId = [] := by
        simp [encountersOf, hlf]
      rw [this] at hcard1
      simp only [List.toFinset_nil, Finset.card_empty, Nat.le_zero] at hcard1
      omega
    | some ctx =>
      obtain ⟨hsum, hnodup, hpos⟩ := hinvf ctx hlf
      have henc : encountersOf (sprayRun N bId destEid neighbors []).2 bId
          = ctx.encounters := by
        simp [encountersOf, hlf]
      rw [henc] at hcard1
      have hlen := List.toFinset_card_le ctx.encounters
      omega
  · intro hist ctx n hctx h1 hne
    unfold SprayAndWaitRouting.should_spray
    rw [hctx]
    dsimp only [Option.getD_some]
    rw [if_neg (Ne.symm hne), if_neg (by simp [h1])]
  · intro hist
    unfold SprayAndWaitRouting.should_spray
    rw [if_pos rfl]

/-- Witness for C4: budget 3 allows at most 2 distinct sprays; a context
down to its last copy refuses a fresh neighbor; the destination is always
accepted. -/
theorem spray_and_wait_witness :
    (sprayedNeighbors
        (sprayRun 3 0 "ipn:9.1" ["ipn:1.1", "ipn:2.1", "ipn:3.1", "ipn:9.1"] []).1
        "ipn:9.1").toFinset.card ≤ 2 ∧
    (SprayAndWaitRouting.should_spray 3
        [(0, { encounters := ["ipn:1.1", "ipn:2.1"], copiesLeft := 1 })]
        0 "ipn:9.1" "ipn:4.1").1 = false ∧
    (SprayAndWaitRouting.should_spray 3 [] 0 "ipn:9.1" "ipn:9.1").1 = true :=
  ⟨(spray_and_wait_budget 3 0 "ipn:9.1" ["ipn:1.1", "ipn:2.1", "ipn:3.1", "ipn:9.1"]).1,
   (spray_and_wait_budget 3 0 "ipn:9.1" []).2.1
     [(0, { encounters := ["ipn:1.1", "ipn:2.1"], copiesLeft := 1 })]
     { encounters := ["ipn:1.1", "ipn:2.1"], copiesLeft := 1 }
     "ipn:4.1" rfl rfl (by decide),
   (spray_and_wait_budget 3 0 "ipn:9.1" []).2.2 []⟩

lemma mem_encountersOf_update (hist : RoutingHistory) (bId bId2 : Nat)
    (n n2 : String) (h : n ∈ encountersOf hist bId) :
    n ∈ encountersOf (EpidemicRouting.update_encounter hist bId2 n2) bId := by
  unfold EpidemicRouting.update_encounter
  by_cases hb : bId = bId2
  · subst hb
    simp only [encountersOf, lookupKV_insert_self]
    cases hl : lookupKV hist bId with
    | none => simp [encountersOf, hl] at h
    | some c =>
      simp only [encountersOf, hl] at h
      simp only [Option.getD_some]
      exact mem_setInsert_of_mem h
  · simp only [encountersOf, lookupKV_insert_ne _ _ _ _ hb]
    exact h

lemma mem_encountersOf_step (hist : RoutingHistory) (bId bId2 : Nat)
    (n dest2 n2 : String) (h : n ∈ encountersOf hist bId) :
    n ∈ encountersOf (EpidemicRouting.should_forward hist bId2 dest2 n2).2 bId := by
  unfold EpidemicRouting.should_forward
  split_ifs with h1 h2
  · exact h
  · exact mem_encountersOf_update hist bId bId2 n n2 h
  · exact h

lemma mem_encountersOf_run (calls : List (Nat × String × String)) :
    ∀ hist bId n, n ∈ encountersOf hist bId →
      n ∈ encountersOf (epidemicRun calls hist) bId := by
  induction calls with
  | nil => intro hist bId n h; simpa [epidemicRun] using h
  | cons c calls ih =>
    intro hist bId n h
    obtain ⟨cb, cd, cn⟩ := c
    rw [epidemicRun]
    exact ih _ bId n (mem_encountersOf_step hist bId cb n cd cn h)

/-- C5: For the flooding (epidemic) engine, after `should_forward` answers
`true` for a bundle and a non-destination neighbor, every later
`should_forward` call for that same pair — after any interleaving of other
calls — answers `false`; a contact whose neighbor is the bundle's own
destination is accepted unconditionally. -/
theorem epidemic_forward_once (hist : RoutingHistory) (bundleId : Nat)
    (destEid neighborEid : String) (hne : neighborEid ≠ destEid)
    (calls : List (Nat × String × String))
    (hfwd : (EpidemicRouting.should_forward hist bundleId destEid neighborEid).1 = true) :
    (EpidemicRouting.should_forward
        (epidemicRun calls
          (EpidemicRouting.should_forward hist bundleId destEid neighborEid).2)
        bundleId destEid neighborEid).1 = false ∧
    (∀ hist2 bundleId2 destEid2,
      (EpidemicRouting.should_forward hist2 bundleId2 destEid2 destEid2).1 = true) := by
  constructor
  · have hd : destEid ≠ neighborEid := Ne.symm hne
    have hstate : (EpidemicRouting.should_forward hist bundleId destEid neighborEid).2
        = EpidemicRouting.update_encounter hist bundleId neighborEid := by
      unfold EpidemicRouting.should_forward
      rw [if_neg hd]
      by_cases hr : EpidemicRouting.should_replicate hist bundleId neighborEid = true
      · rw [if_pos hr]
      · exfalso
        unfold EpidemicRouting.should_forward at hfwd
        rw [if_neg hd, if_neg hr] at hfwd
        simp at hfwd
    have hmem0 : neighborEid ∈ encountersOf
        (EpidemicRouting.should_forward hist bundleId destEid neighborEid).2 bundleId := by
      rw [hstate]
      unfold EpidemicRouting.update_encounter
      simp only [encountersOf, lookupKV_insert_self]
      exact mem_setInsert_self _ neighborEid
    set S := epidemicRun calls
      (EpidemicRouting.should_forward hist bundleId destEid neighborEid).2 with hS
    have hmem : neighborEid ∈ encountersOf S bundleId :=
      mem_encountersOf_run calls _ bundleId neighborEid hmem0
    have hrep : EpidemicRouting.should_replicate S bundleId neighborEid = false := by
      unfold EpidemicRouting.should_replicate
      cases hl : lookupKV S bundleId with
      | none =>
        simp [encountersOf, hl] at hmem
      | some c =>
        simp only [encountersOf, hl] at hmem
        simp [hmem]
    show (EpidemicRouting.should_forward S bundleId destEid neighborEid).1 = false
    unfold EpidemicRouting.should_forward
    rw [if_neg hd, if_neg (by simp [hrep])]
  · intro hist2 bundleId2 destEid2
    unfold EpidemicRouting.should_forward
    rw [if_pos rfl]

/-- Witness for C5: a concrete replay where the second offer of the same
neighbor is refused and direct delivery is accepted. -/
theorem epidemic_forward_once_witness :
    (EpidemicRouting.should_forward
        (epidemicRun [(1, "ipn:9.1", "ipn:3.1")]
          (EpidemicRouting.should_forward [] 0 "ipn:9.1" "ipn:2.1").2)
        0 "ipn:9.1" "ipn:2.1").1 = false ∧
    (EpidemicRouting.should_forward [] 5 "ipn:7.1" "ipn:7.1").1 = true :=
  ⟨(epidemic_forward_once [] 0 "ipn:9.1" "ipn:2.1" (by decide)
      [(1, "ipn:9.1", "ipn:3.1")] (by rfl)).1,
   (epidemic_forward_once [] 0 "ipn:9.1" "ipn:2.1" (by decide)
      [(1, "ipn:9.1", "ipn:3.1")] (by rfl)).2 [] 5 "ipn:7.1"⟩

/-- C1: for every payload, every 32-byte key and every 12-byte nonce, the
encryptor prepends the nonce to the sealed ciphertext+tag, and decrypting
that output with the same key under AES-256-GCM recovers exactly the
original payload. -/
theorem encrypt_decrypt_roundtrip (A : Aead) (payload key nonce : List Nat)
    (hkey : key.length = 32) (hnonce : nonce.length = 12) :
    encrypt_data A nonce payload key "AES-256-GCM"
        = Except.ok (nonce ++ A.sealOp key nonce payload) ∧
    decrypt_data A (nonce ++ A.sealOp key nonce payload) key "AES-256-GCM"
        = Except.ok payload := by
  constructor
  · simp [encrypt_data, hkey]
  · obtain ⟨buf, hopen, hlen, htake⟩ := A.open_seal key nonce payload
    have hslen := A.seal_length key nonce payload
    have hdlen : (nonce ++ A.sealOp key nonce payload).length = payload.length + 28 := by
      simp [hnonce, hslen]; omega
    have htk : (nonce ++ A.sealOp key nonce payload).take 12 = nonce := by
      rw [← hnonce]; exact List.take_left _ _
    have hdr : (nonce ++ A.sealOp key nonce payload).drop 12 = A.sealOp key nonce payload := by
      rw [← hnonce]; exact List.drop_left _ _
    rw [decrypt_data, if_pos rfl, if_neg (by omega), if_neg (by simp [hkey]), htk, hdr, hopen]
    have h16 : buf.length - 16 = payload.length := by omega
    dsimp only
    rw [h16, htake]

/-- Witness for C1: the round trip evaluated at a concrete payload,
32-byte key and 12-byte nonce with the concrete AEAD model. -/
theorem roundtrip_witness :
    encrypt_data trivAead (List.replicate 12 7) [1, 2, 3] (List.replicate 32 0) "AES-256-GCM"
        = Except.ok (List.replicate 12 7 ++ trivAead.sealOp (List.replicate 32 0) (List.replicate 12 7) [1, 2, 3]) ∧
    decrypt_data trivAead
        (List.replicate 12 7 ++ trivAead.sealOp (List.replicate 32 0) (List.replicate 12 7) [1, 2, 3])
        (List.replicate 32 0) "AES-256-GCM" = Except.ok [1, 2, 3] :=
  encrypt_decrypt_roundtrip trivAead [1, 2, 3] (List.replicate 32 0) (List.replicate 12 7)
    (by simp) (by simp)

/-- C8: Encryption under AES-256-GCM with a key whose length is not 32
bytes fails with the `Security` error (never padding or truncating); any
other algorithm name on the encrypt path, or any name other than
HMAC-SHA256 on the sign path, fails with a `Protocol` error whose message
names the offending algorithm. -/
theorem security_validation (A : Aead) (hmac : List Nat → List Nat → List Nat)
    (nonce data key : List Nat) (alg : String) :
    (key.length ≠ 32 →
      encrypt_data A nonce data key "AES-256-GCM"
        = Except.error (BpError.Security "Invalid key length for AES-256")) ∧
    (alg ≠ "AES-256-GCM" →
      encrypt_data A nonce data key alg
        = Except.error (BpError.Protocol ("Unsupported encryption algorithm: " ++ alg))) ∧
    (alg ≠ "HMAC-SHA256" →
      sign_data hmac data key alg
        = Except.error (BpError.Protocol ("Unsupported signature algorithm: " ++ alg))) := by
  refine ⟨fun h32 => ?_, fun ha => ?_, fun hs => ?_⟩
  · rw [encrypt_data, if_pos rfl, if_pos h32]
  · rw [encrypt_data, if_neg ha]
  · rw [sign_data, if_neg hs]

/-- Witness for C8: a 16-byte key and the algorithm name `INVALID-ALGO`
from the `test_invalid_algorithms` test. -/
theorem security_validation_witness :
    encrypt_data trivAead [] [1] (List.replicate 16 6) "AES-256-GCM"
        = Except.error (BpError.Security "Invalid key length for AES-256") ∧
    encrypt_data trivAead [] [1] (List.replicate 16 6) "INVALID-ALGO"
        = Except.error (BpError.Protocol ("Unsupported encryption algorithm: " ++ "INVALID-ALGO")) ∧
    sign_data (fun _ _ => []) [1] (List.replicate 16 6) "INVALID-ALGO"
        = Except.error (BpError.Protocol ("Unsupported signature algorithm: " ++ "INVALID-ALGO")) :=
  ⟨(security_validation trivAead (fun _ _ => []) [] [1] (List.replicate 16 6) "INVALID-ALGO").1 (by simp),
   (security_validation trivAead (fun _ _ => []) [] [1] (List.replicate 16 6) "INVALID-ALGO").2.1 (by decide),
   (security_validation trivAead (fun _ _ => []) [] [1] (List.replicate 16 6) "INVALID-ALGO").2.2 (by decide)⟩

/-- Counterexample for C2: `"dtn:node"` matches the spec's free-text
scheme yet the `types.rs` constructor rejects it, and `"ipn:a.b"` matches
neither the numeric `node.service` scheme nor the free-text scheme yet
both constructors accept it — so acceptance is not equivalent to matching
one of the two spec shapes. -/
theorem eid_scheme_counterexample :
    (matchesFreeTextScheme "dtn:node" = true ∧
      typesEidNew "dtn:node" = Except.error BpError.InvalidArgs) ∧
    (matchesNumericScheme "ipn:a.b" = false ∧ matchesFreeTextScheme "ipn:a.b" = false ∧
      typesEidNew "ipn:a.b" = Except.ok "ipn:a.b" ∧
      protocolEidNew "ipn:a.b" = Except.ok "ipn:a.b") :=
  ⟨⟨by decide, by rfl⟩, by decide, by decide, by rfl, by rfl⟩

/-- C2 (amended): the `types.rs` constructor accepts exactly the strings
starting with `"ipn:"` and containing a dot (with no numeric validation of
node and service), the `protocol` module constructor additionally accepts
any string starting with `"dtn:"`, and every other string fails with
`InvalidArgs`. -/
theorem eid_validation_amended (s : String) :
    (typesEidNew s = Except.ok s ↔
      (strStartsWith s "ipn:" && strContainsChar s '.') = true) ∧
    ((strStartsWith s "ipn:" && strContainsChar s '.') = false →
      typesEidNew s = Except.error BpError.InvalidArgs) ∧
    (protocolEidNew s = Except.ok s ↔
      ((strStartsWith s "ipn:" && strContainsChar s '.') || strStartsWith s "dtn:") = true) ∧
    (((strStartsWith s "ipn:" && strContainsChar s '.') || strStartsWith s "dtn:") = false →
      protocolEidNew s = Except.error BpError.InvalidArgs) := by
  refine ⟨?_, ?_, ?_, ?_⟩ <;>
    simp only [typesEidNew, protocolEidNew] <;>
    split_ifs <;>
    simp_all

/-- Witness for C2: a well-formed `ipn` EID is accepted and a schemeless
string is rejected with `InvalidArgs`. -/
theorem eid_validation_witness :
    typesEidNew "ipn:2.1" = Except.ok "ipn:2.1" ∧
    typesEidNew "node" = Except.error BpError.InvalidArgs :=
  ⟨(eid_validation_amended "ipn:2.1").1.mpr (by decide),
   (eid_validation_amended "node").2.1 (by decide)⟩

/-- C3: the stream transport's frame receiver rejects any declared 4-byte
big-endian length prefix exceeding the 10,000,000-byte safety ceiling with
a `Protocol` error.  The rejection depends only on the 4-byte prefix — the
theorem holds for arbitrary (including empty) remainders of the stream,
mirroring that the code returns before allocating the `vec![0u8; len]`
receive buffer. -/
theorem frame_length_ceiling (input : List Nat)
    (h4 : 4 ≤ input.length)
    (hbig : u32FromBeBytes (input.take 4) > 10000000) :
    tcpReceiveFrame input = Except.error (BpError.Protocol "Bundle too large") := by
  unfold tcpReceiveFrame
  rw [if_neg (by omega)]
  dsimp only
  rw [if_pos hbig]

/-- Witness for C3: a stream consisting of only the length prefix
`0xFFFFFFFF` is rejected outright. -/
theorem frame_length_ceiling_witness :
    tcpReceiveFrame [255, 255, 255, 255]
      = Except.error (BpError.Protocol "Bundle too large") :=
  frame_length_ceiling [255, 255, 255, 255] (by decide) (by decide)

/-- Counterexample for C9: `RoutingManager::register_engine` has no
duplicate check — registering a second engine under the name `"epidemic"`
does not fail with `Duplicate`; it replaces the first engine (the stored
entry afterwards is the second engine, identity 2). -/
theorem registry_duplicate_counterexample :
    RoutingManager.register_engine
        (RoutingManager.register_engine ⟨[], none⟩ "epidemic" 1) "epidemic" 2
      = ⟨[("epidemic", 2)], some "epidemic"⟩ := by rfl

/-- C9 (amended): the security-policy and CLA registries fail a duplicate
registration with `Duplicate` and fail removal of an unknown name with
`NotFound`; the routing-engine registry's `register_engine` cannot fail —
a second registration under an existing name silently replaces the first
engine — and `set_active_engine` on an unregistered name fails with
`NotFound`. -/
theorem registry_contract_amended (policies : List (String × SecurityPolicy))
    (p : SecurityPolicy) (pname : String) (clas : List (String × Nat))
    (proto proto2 : String) (claId : Nat) (st : RoutingManagerState)
    (ename : String) (engineId : Nat) :
    (containsKV policies p.name = true →
      add_policy policies p = Except.error BpError.Duplicate) ∧
    (containsKV policies pname = false →
      remove_policy policies pname = Except.error BpError.NotFound) ∧
    (containsKV clas proto = true →
      ClaManager.register clas proto claId = Except.error BpError.Duplicate) ∧
    (containsKV clas proto2 = false →
      ClaManager.unregister clas proto2 = Except.error BpError.NotFound) ∧
    (lookupKV (RoutingManager.register_engine st ename engineId).engines ename
      = some engineId) ∧
    (containsKV st.engines ename = false →
      RoutingManager.set_active_engine st ename = Except.error BpError.NotFound) := by
  refine ⟨fun h => ?_, fun h => ?_, fun h => ?_, fun h => ?_, ?_, fun h => ?_⟩
  · rw [add_policy, if_pos h]
  · rw [remove_policy, if_neg (by simp [h])]
  · rw [ClaManager.register, if_pos h]
  · rw [ClaManager.unregister, if_neg (by simp [h])]
  · exact lookupKV_insert_self st.engines ename engineId
  · rw [RoutingManager.set_active_engine, if_neg (by simp [h])]

/-- Witness for C9 (amended): concrete registries exercising every
branch. -/
theorem registry_contract_witness :
    add_policy [("selective-policy", selectivePolicy)] selectivePolicy
      = Except.error BpError.Duplicate ∧
    remove_policy [("selective-policy", selectivePolicy)] "missing"
      = Except.error BpError.NotFound ∧
    ClaManager.register [("tcp", 1)] "tcp" 2 = Except.error BpError.Duplicate ∧
    ClaManager.unregister [("tcp", 1)] "udp" = Except.error BpError.NotFound ∧
    lookupKV (RoutingManager.register_engine ⟨[], none⟩ "prophet" 7).engines "prophet"
      = some 7 ∧
    RoutingManager.set_active_engine ⟨[], none⟩ "prophet"
      = Except.error BpError.NotFound := by
  obtain ⟨h1, h2, h3, h4, h5, h6⟩ :=
    registry_contract_amended [("selective-policy", selectivePolicy)] selectivePolicy
      "missing" [("tcp", 1)] "tcp" "udp" 2 ⟨[], none⟩ "prophet" 7
  exact ⟨h1 (by rfl), h2 (by rfl), h3 (by rfl), h4 (by rfl), h5, h6 (by rfl)⟩

/-- C7: a security policy applies to a destination iff it is enabled and
its target list is empty or contains that destination; and `apply_security`
on a bundle whose destination matches no stored policy returns the bundle
unchanged. -/
theorem policy_scope (pol : SecurityPolicy) (e : String) (A : Aead)
    (hmac : List Nat → List Nat → List Nat) (nonces : Nat → List Nat)
    (policies : List SecurityPolicy) (keys : List (String × List Nat))
    (b : Bundle) :
    (pol.applies_to e = true ↔
      (pol.enabled = true ∧ (pol.targetEids = [] ∨ e ∈ pol.targetEids))) ∧
    ((∀ q ∈ policies, q.applies_to b.destEid = false) →
      apply_security A hmac nonces policies keys b = Except.ok b) := by
  constructor
  · simp [SecurityPolicy.applies_to, List.isEmpty_iff]
  · intro hall
    have hfilter : policies.filter (fun p => p.applies_to b.destEid) = [] := by
      rw [List.filter_eq_nil_iff]
      intro a ha
      simp [hall a ha]
    rw [apply_security]
    simp [hfilter]

/-- Witness for C7: the `test_policy_application_conditions` scenario — a
policy scoped to `ipn:3.1` leaves a bundle destined to `ipn:2.1`
untouched. -/
theorem policy_scope_witness :
    apply_security trivAead (fun _ _ => []) (fun _ => [])
      [selectivePolicy] [] (mkBundle "ipn:2.1" [])
    = Except.ok (mkBundle "ipn:2.1" []) :=
  (policy_scope selectivePolicy "ipn:2.1" trivAead (fun _ _ => []) (fun _ => [])
    [selectivePolicy] [] (mkBundle "ipn:2.1" [])).2 (by decide)

/-- C6 (amended): `decrypt_bundle` returns a bundle unchanged when it
carries no `"security_applied"` marker or when the marker's value is not
`"encryption"`; when the marker is `"encryption"` it tries every stored
key in order against the recorded algorithm — failing with the `Security`
error when every key fails, and returning the bundle decrypted by the
first succeeding key with both security markers removed. -/
theorem decrypt_bundle_cases (A : Aead) (keys : List (String × List Nat))
    (b : Bundle) :
    (lookupKV b.metadata "security_applied" = none →
      decrypt_bundle A keys b = Except.ok b) ∧
    (∀ st, lookupKV b.metadata "security_applied" = some st → st ≠ "encryption" →
      decrypt_bundle A keys b = Except.ok b) ∧
    (lookupKV b.metadata "security_applied" = some "encryption" →
      ((∀ k ∈ keys.map Prod.snd, ∀ pl,
          decrypt_data A b.payload k (recordedAlgorithm b) ≠ Except.ok pl) →
        decrypt_bundle A keys b
          = Except.error (BpError.Security "Failed to decrypt bundle")) ∧
      (∀ ks1 k ks2 pl, keys.map Prod.snd = ks1 ++ k :: ks2 →
        (∀ k' ∈ ks1, ∀ q,
          decrypt_data A b.payload k' (recordedAlgorithm b) ≠ Except.ok q) →
        decrypt_data A b.payload k (recordedAlgorithm b) = Except.ok pl →
        decrypt_bundle A keys b
          = Except.ok { b with
              payload := pl
              metadata :=
                removeKV (removeKV b.metadata "security_applied") "encryption_algorithm" })) := by
  refine ⟨fun hno => ?_, fun st hst hne => ?_, fun henc => ⟨fun hall => ?_, ?_⟩⟩
  · rw [decrypt_bundle, hno]
  · rw [decrypt_bundle, hst]
    dsimp only
    rw [if_pos hne]
  · rw [decrypt_bundle, henc]
    dsimp only
    rw [if_neg (by simp)]
    exact decryptLoop_all_fail A b (recordedAlgorithm b) _ hall
  · intro ks1 k ks2 pl hsplit hfail hk
    rw [decrypt_bundle, henc]
    dsimp only
    rw [if_neg (by simp), hsplit]
    exact decryptLoop_first_success A b (recordedAlgorithm b) ks1 k ks2 pl hfail hk

/-- Counterexample for C6: a bundle carrying the `"security_applied"`
marker with value `"signature"` is returned unchanged by `decrypt_bundle`
with an empty keyring, although the claim requires any marked bundle to be
brute-force decrypted and to fail with a `Security` error when no stored
key decrypts. -/
theorem decrypt_bundle_counterexample :
    lookupKV (mkBundle "ipn:2.1" [("security_applied", "signature")]).metadata
        "security_applied" = some "signature" ∧
    decrypt_bundle trivAead []
        (mkBundle "ipn:2.1" [("security_applied", "signature")])
      = Except.ok (mkBundle "ipn:2.1" [("security_applied", "signature")]) :=
  ⟨by rfl, by rfl⟩

/-- Witness for C6 (amended): an unmarked bundle passes through, and an
encryption-marked bundle with an empty keyring fails with the `Security`
error. -/
theorem decrypt_bundle_witness :
    decrypt_bundle trivAead [] (mkBundle "ipn:2.1" [])
      = Except.ok (mkBundle "ipn:2.1" []) ∧
    decrypt_bundle trivAead []
        (mkBundle "ipn:2.1" [("security_applied", "encryption")])
      = Except.error (BpError.Security "Failed to decrypt bundle") :=
  ⟨(decrypt_bundle_cases trivAead [] (mkBundle "ipn:2.1" [])).1 rfl,
   ((decrypt_bundle_cases trivAead []
      (mkBundle "ipn:2.1" [("security_applied", "encryption")])).2.2 rfl).1 (by simp)⟩

/-! ### IEEE-754 rounding lemmas and the Prophet probability claims -/

lemma bitLenAux_zero (fuel : ℕ) : bitLenAux fuel 0 = 0 := by
  cases fuel <;> simp [bitLenAux]

lemma bitLenAux_spec (fuel : ℕ) : ∀ n, 0 < n → n < 2 ^ fuel →
    n < 2 ^ bitLenAux fuel n ∧ 2 ^ (bitLenAux fuel n - 1) ≤ n := by
  induction fuel with
  | zero => intro n h0 h1; simp at h1; omega
  | succ fuel ih =>
    intro n h0 h1
    rw [bitLenAux, if_neg (by omega)]
    by_cases h2 : n = 1
    · subst h2
      simp [bitLenAux_zero]
    · have hn2 : 2 ≤ n := by omega
      have hhalf_pos : 0 < n / 2 := Nat.div_pos (by omega) (by omega)
      have hhalf_lt : n / 2 < 2 ^ fuel := by
        rw [pow_succ] at h1
        omega
      obtain ⟨ha, hb⟩ := ih (n / 2) hhalf_pos hhalf_lt
      constructor
      · rw [pow_succ]
        calc n < (n / 2 + 1) * 2 := by omega
          _ ≤ 2 ^ bitLenAux fuel (n / 2) * 2 := Nat.mul_le_mul_right 2 ha
      · have hL1 : 1 ≤ bitLenAux fuel (n / 2) := by
          by_contra hc
          push_neg at hc
          have h0' : bitLenAux fuel (n / 2) = 0 := by omega
          rw [h0'] at ha
          simp at ha
          omega
        have he : bitLenAux fuel (n / 2) + 1 - 1 = (bitLenAux fuel (n / 2) - 1) + 1 := by
          omega
        rw [he, pow_succ]
        calc 2 ^ (bitLenAux fuel (n / 2) - 1) * 2 ≤ (n / 2) * 2 :=
            Nat.mul_le_mul_right 2 hb
          _ ≤ n := by omega

lemma bitLen_spec (n : ℕ) (h0 : 0 < n) (h1 : n < 2 ^ 128) :
    n < 2 ^ bitLen n ∧ 2 ^ (bitLen n - 1) ≤ n :=
  bitLenAux_spec 128 n h0 h1

lemma two_zpow_pos (x : ℤ) : (0 : ℚ) < 2 ^ x :=
  zpow_pos (by norm_num) x

lemma toRat_scale (p : Fp) (em : ℤ) (h : em ≤ p.2) :
    p.toRat = ((p.1 * 2 ^ (p.2 - em).toNat : ℤ) : ℚ) * 2 ^ em := by
  have hd : ((p.2 - em).toNat : ℤ) = p.2 - em := Int.toNat_of_nonneg (by omega)
  unfold Fp.toRat
  push_cast
  rw [← zpow_natCast (2 : ℚ) (p.2 - em).toNat, hd, mul_assoc,
    ← zpow_add₀ (by norm_num : (2 : ℚ) ≠ 0), sub_add_cancel]

lemma fltB_iff (a b : Fp) : fltB a b = true ↔ a.toRat < b.toRat := by
  unfold fltB
  rw [decide_eq_true_iff]
  rw [toRat_scale a (min a.2 b.2) (min_le_left _ _),
    toRat_scale b (min a.2 b.2) (min_le_right _ _)]
  rw [mul_lt_mul_right (two_zpow_pos _)]
  exact ⟨fun h => by exact_mod_cast h, fun h => by exact_mod_cast h⟩

lemma roundSig_cases (s : ℤ) (k : ℕ) :
    roundSig s k = s / 2 ^ k ∨
      (roundSig s k = s / 2 ^ k + 1 ∧ 0 < s % 2 ^ k) := by
  unfold roundSig
  split_ifs with h1 h2 h3
  · right
    refine ⟨rfl, lt_of_le_of_lt ?_ h1⟩
    positivity
  · left; rfl
  · left; rfl
  · right
    refine ⟨rfl, ?_⟩
    have hr : s % 2 ^ k = 2 ^ (k - 1) := le_antisymm (not_lt.mp h1) (not_lt.mp h2)
    rw [hr]
    positivity

lemma roundNE_toRat_of_ge (s e : ℤ) (h53 : ¬ s < 2 ^ 53) :
    (roundNE s e).toRat
      = (roundSig s (bitLen s.toNat - 53) : ℚ)
          * 2 ^ (e + (bitLen s.toNat - 53 : ℕ)) := by
  rw [roundNE, if_neg h53]
  split_ifs with hc
  · rw [hc]
    unfold Fp.toRat
    push_cast
    rw [show e + ((bitLen s.toNat - 53 : ℕ) : ℤ) + 1
        = (e + ((bitLen s.toNat - 53 : ℕ) : ℤ)) + 1 from by ring,
      zpow_add_one₀ (by norm_num : (2 : ℚ) ≠ 0)]
    ring
  · unfold Fp.toRat
    norm_num

lemma roundNE_le_bound (s e : ℤ) (hs : 0 ≤ s) (hsb : s < 2 ^ 106)
    (t : Fp) (ht : t.1 < 2 ^ 53)
    (hle : (s : ℚ) * 2 ^ e ≤ t.toRat) :
    (roundNE s e).toRat ≤ t.toRat := by
  by_cases h53 : s < 2 ^ 53
  · rw [roundNE, if_pos h53]
    unfold Fp.toRat
    exact hle
  · have hpos : 0 < s := lt_of_lt_of_le (by norm_num) (not_lt.mp h53)
    have hns : ((s.toNat : ℕ) : ℤ) = s := Int.toNat_of_nonneg hs
    have hnpos : 0 < s.toNat := by omega
    have hnb : s.toNat < 2 ^ 128 := by
      have h128 : (2 : ℤ) ^ 128 = ((2 ^ 128 : ℕ) : ℤ) := by push_cast
      have : s < 2 ^ 128 := lt_of_lt_of_le hsb (by norm_num)
      omega
    obtain ⟨hlt, hge⟩ := bitLen_spec s.toNat hnpos hnb
    have hL54 : 54 ≤ bitLen s.toNat := by
      by_contra hc
      push_neg at hc
      have hle53 : (2 : ℕ) ^ bitLen s.toNat ≤ 2 ^ 53 :=
        Nat.pow_le_pow_right (by norm_num) (by omega)
      have hs53 : (2 : ℤ) ^ 53 ≤ s := not_lt.mp h53
      have hcast : ((2 ^ 53 : ℕ) : ℤ) = (2 : ℤ) ^ 53 := by push_cast
      omega
    set k : ℕ := bitLen s.toNat - 53 with hkdef
    have hub : s < 2 ^ (53 + k) := by
      have h1 : s.toNat < 2 ^ (53 + k) := by
        have : bitLen s.toNat = 53 + k := by omega
        rwa [this] at hlt
      have hcast : ((2 ^ (53 + k) : ℕ) : ℤ) = (2 : ℤ) ^ (53 + k) := by (push_cast; ring)
      omega
    have hlb : (2 : ℤ) ^ (52 + k) ≤ s := by
      have h1 : 2 ^ (52 + k) ≤ s.toNat := by
        have : bitLen s.toNat - 1 = 52 + k := by omega
        rwa [this] at hge
      have hcast : ((2 ^ (52 + k) : ℕ) : ℤ) = (2 : ℤ) ^ (52 + k) := by (push_cast; ring)
      omega
    have h2k : (0 : ℤ) < 2 ^ k := by positivity
    have hq_ub : s / 2 ^ k < 2 ^ 53 := by
      rw [Int.ediv_lt_iff_lt_mul h2k, ← pow_add]
      exact hub
    have hq_lb : (2 : ℤ) ^ 52 ≤ s / 2 ^ k := by
      rw [Int.le_ediv_iff_mul_le h2k, ← pow_add]
      exact hlb
    have hqm : 2 ^ k * (s / 2 ^ k) + s % 2 ^ k = s := Int.ediv_add_emod s (2 ^ k)
    have hr_nonneg : 0 ≤ s % 2 ^ k := Int.emod_nonneg s (by positivity)
    have hexp : (2 : ℚ) ^ (e + (k : ℤ)) = 2 ^ (k : ℤ) * 2 ^ e := by
      rw [← zpow_add₀ (by norm_num : (2 : ℚ) ≠ 0)]
      congr 1
      ring
    have hval := roundNE_toRat_of_ge s e h53
    rw [← hkdef] at hval
    rw [hval]
    rcases roundSig_cases s k with hq2 | ⟨hq2, hrpos⟩
    · rw [hq2]
      have hmul_le : (s / 2 ^ k) * 2 ^ k ≤ s := by
        rw [mul_comm]
        linarith [hqm, hr_nonneg]
      calc ((s / 2 ^ k : ℤ) : ℚ) * 2 ^ (e + (k : ℤ))
          = (((s / 2 ^ k) * 2 ^ k : ℤ) : ℚ) * 2 ^ e := by
            rw [hexp, ← mul_assoc]
            push_cast
            rw [zpow_natCast]
        _ ≤ (s : ℚ) * 2 ^ e := by
            apply mul_le_mul_of_nonneg_right _ (le_of_lt (two_zpow_pos e))
            exact_mod_cast hmul_le
        _ ≤ t.toRat := hle
    · rw [hq2]
      by_contra hcon
      push_neg at hcon
      have h2ek := two_zpow_pos (e + (k : ℤ))
      have hmul_lt : (s / 2 ^ k) * 2 ^ k < s := by
        rw [mul_comm]
        linarith [hqm, hrpos]
      have hlow : ((s / 2 ^ k : ℤ) : ℚ) * 2 ^ (e + (k : ℤ)) < t.toRat := by
        calc ((s / 2 ^ k : ℤ) : ℚ) * 2 ^ (e + (k : ℤ))
            = (((s / 2 ^ k) * 2 ^ k : ℤ) : ℚ) * 2 ^ e := by
              rw [hexp, ← mul_assoc]
              push_cast
              rw [zpow_natCast]
          _ < (s : ℚ) * 2 ^ e := by
              apply mul_lt_mul_of_pos_right _ (two_zpow_pos e)
              exact_mod_cast hmul_lt
          _ ≤ t.toRat := hle
      have ht2 : e + (k : ℤ) ≤ t.2 := by
        by_contra hc
        push_neg at hc
        have hA : (2 : ℚ) ^ ((52 : ℤ) + (e + (k : ℤ))) < 2 ^ ((53 : ℤ) + t.2) := by
          calc (2 : ℚ) ^ ((52 : ℤ) + (e + (k : ℤ)))
              = (2 : ℚ) ^ (52 : ℤ) * 2 ^ (e + (k : ℤ)) :=
                zpow_add₀ (by norm_num) _ _
            _ ≤ ((s / 2 ^ k : ℤ) : ℚ) * 2 ^ (e + (k : ℤ)) := by
                apply mul_le_mul_of_nonneg_right _ (le_of_lt h2ek)
                have h52 : ((2 : ℤ) ^ 52 : ℚ) ≤ ((s / 2 ^ k : ℤ) : ℚ) := by
                  exact_mod_cast hq_lb
                calc (2 : ℚ) ^ (52 : ℤ) = ((2 : ℤ) ^ 52 : ℚ) := by norm_num
                  _ ≤ ((s / 2 ^ k : ℤ) : ℚ) := h52
            _ < t.toRat := hlow
            _ = (t.1 : ℚ) * 2 ^ t.2 := rfl
            _ < (2 : ℚ) ^ (53 : ℤ) * 2 ^ t.2 := by
                apply mul_lt_mul_of_pos_right _ (two_zpow_pos t.2)
                calc (t.1 : ℚ) < ((2 : ℤ) ^ 53 : ℚ) := by exact_mod_cast ht
                  _ = (2 : ℚ) ^ (53 : ℤ) := by norm_num
            _ = (2 : ℚ) ^ ((53 : ℤ) + t.2) := (zpow_add₀ (by norm_num) _ _).symm
        rw [zpow_lt_zpow_iff_right₀ (by norm_num : (1 : ℚ) < 2)] at hA
        omega
      have htm := toRat_scale t (e + (k : ℤ)) ht2
      rw [htm] at hlow hcon
      rw [mul_lt_mul_right h2ek] at hlow hcon
      have h1 : s / 2 ^ k < t.1 * 2 ^ (t.2 - (e + (k : ℤ))).toNat := by
        exact_mod_cast hlow
      have h2 : t.1 * 2 ^ (t.2 - (e + (k : ℤ))).toNat < s / 2 ^ k + 1 := by
        exact_mod_cast hcon
      omega

set_option maxRecDepth 8000 in
/-- Counterexample for C10: in the program's own `f64` arithmetic the
stored delivery probability, strictly below 1 after 26 contact updates
from the default 0.0, reaches exactly 1.0 on the 27th update (the exact
sum ties and rounds to even, i.e. up to 1.0); the next update then
returns the stored datum unchanged — so at this reachable state the
update is not a strict increase and the value does not remain below 1. -/
theorem prophet_update_counterexample :
    (probAfter 26).toRat < 1 ∧
    (probAfter 27).toRat = 1 ∧
    f64update (probAfter 27) = probAfter 27 := by
  have h1 : Fp.toRat (1, 0) = 1 := by norm_num [Fp.toRat]
  refine ⟨?_, ?_, ?_⟩
  · rw [← h1]
    exact (fltB_iff _ _).mp (by decide)
  · have h27 : probAfter 27 = (2 ^ 52, -52) := by decide
    rw [h27]
    norm_num [Fp.toRat]
  · decide

set_option maxRecDepth 40000 in
/-- C10 (amended): under the program's `f64` arithmetic, a neighbor's
stored delivery probability strictly increases on each of the first 27
contact updates from the default 0.0, reaches exactly 1.0 on the 27th and
is left unchanged by every later update (saturation — not a strict
increase, and no longer below 1); aging multiplies the stored probability
by the computed decay factor, and whenever that factor lies in `[0, 1]`
the correctly rounded multiplication never increases the stored
probability. -/
theorem prophet_probability_f64 :
    (∀ i, i < 27 → (probAfter i).toRat < (probAfter (i + 1)).toRat) ∧
    (probAfter 27).toRat = 1 ∧
    (∀ n, 27 ≤ n → probAfter n = probAfter 27) ∧
    (∀ p f : Fp, 0 ≤ p.1 → p.1 < 2 ^ 53 → 0 ≤ f.1 → f.1 < 2 ^ 53 →
      f.toRat ≤ 1 → (fmul p f).toRat ≤ p.toRat) := by
  refine ⟨?_, ?_, ?_, ?_⟩
  · have hall : ∀ i, i < 27 → fltB (probAfter i) (probAfter (i + 1)) = true := by
      decide
    intro i hi
    exact (fltB_iff _ _).mp (hall i hi)
  · have h27 : probAfter 27 = (2 ^ 52, -52) := by decide
    rw [h27]
    norm_num [Fp.toRat]
  · have hfix : f64update (probAfter 27) = probAfter 27 := by decide
    intro n hn
    induction n with
    | zero => omega
    | succ m ih =>
      rcases Nat.lt_or_ge m 27 with hlt | hge
      · have hm : m + 1 = 27 := by omega
        rw [hm]
      · rw [probAfter, ih hge, hfix]
  · intro p f hp0 hp53 hf0 hf53 hf1
    unfold fmul
    apply roundNE_le_bound
    · exact mul_nonneg hp0 hf0
    · calc p.1 * f.1 < 2 ^ 53 * 2 ^ 53 := mul_lt_mul'' hp53 hf53 hp0 hf0
        _ = 2 ^ 106 := by norm_num
    · exact hp53
    · have hprod : ((p.1 * f.1 : ℤ) : ℚ) * 2 ^ (p.2 + f.2) = p.toRat * f.toRat := by
        unfold Fp.toRat
        push_cast
        rw [zpow_add₀ (by norm_num : (2 : ℚ) ≠ 0)]
        ring
      rw [hprod]
      have hpnn : 0 ≤ p.toRat := by
        unfold Fp.toRat
        exact mul_nonneg (by exact_mod_cast hp0) (le_of_lt (two_zpow_pos p.2))
      calc p.toRat * f.toRat ≤ p.toRat * 1 := mul_le_mul_of_nonneg_left hf1 hpnn
        _ = p.toRat := mul_one _

/-- Witness for C10 (amended): the first update strictly increases the
probability, the trajectory is saturated at update 30, and halving (a
factor of one half) does not increase a probability of 1. -/
theorem prophet_f64_witness :
    (probAfter 0).toRat < (probAfter 1).toRat ∧
    probAfter 30 = probAfter 27 ∧
    (fmul (1, 0) (1, -1)).toRat ≤ Fp.toRat (1, 0) :=
  ⟨prophet_probability_f64.1 0 (by norm_num),
   prophet_probability_f64.2.2.1 30 (by norm_num),
   prophet_probability_f64.2.2.2 (1, 0) (1, -1) (by norm_num) (by norm_num)
     (by norm_num) (by norm_num) (by norm_num [Fp.toRat])⟩

end BpSdk
